import Mathlib

/-!
# Verification of the cashu wallet core (src/cashu/wallet/wallet.py)

Shallow embedding of the client-side wallet of the cashu ecash mint
protocol, together with proofs of the specification claims about it.

Conventions of the embedding:
* Python ints are `Nat` (amounts, which the spec types as u64) or `Int`
  (the user-supplied `amount` argument of `split`, which Python does not
  range-check).
* Fallible code (Python `assert` / `raise`) returns `Except String`.
* Effectful operations (database reads and writes, HTTP requests) are
  pure functions that additionally return the ordered list of external
  `Event`s they perform; an operation that raises returns the events it
  performed before raising.
* Randomness (`secrets.token_urlsafe`) is modelled as a stream
  `gen : Nat → String` together with a consumption index: the i-th call
  of the generator during an operation yields `gen (k + i)`.
* The elliptic-curve primitives (`b_dhke.step1_alice`, `step3_alice`)
  and the mint public keys are abstract parameters of the context: no
  claim concerns their arithmetic, only the positional bookkeeping
  around them.
-/

namespace Cashu

/-! ## Binary decomposition (`LedgerAPI._get_output_split`, lines 56-64)

The Python code computes `bin(amount)[::-1][:-2]`, the binary digits of
`amount` least-significant first, and collects `2 ** pos` for every
position holding digit 1.  `binDigits` is that digit list (for 0 Python
produces the digit string "0", which contains no set bit; we embed it as
the empty digit list, which yields the same output).  The recursion
`n ↦ n / 2` is made structural with a fuel argument so that every
definition evaluates by kernel reduction. -/

/-- Least-significant-first binary digits of `n`, with explicit fuel
(`fuel ≥ n` suffices, see `binDigitsAux_fuel`). -/
def binDigitsAux : Nat → Nat → List Bool
  | _, 0 => []
  | 0, _ + 1 => []
  | f + 1, m + 1 => ((m + 1) % 2 == 1) :: binDigitsAux f ((m + 1) / 2)

/-- Least-significant-first binary digits of `n` (Python's
`bin(n)[::-1][:-2]`, with the all-zero digit list of 0 normalised away). -/
def binDigits (n : Nat) : List Bool := binDigitsAux n n

theorem binDigitsAux_fuel : ∀ (f g n : Nat), n ≤ f → n ≤ g →
    binDigitsAux f n = binDigitsAux g n := by
  intro f
  induction f with
  | zero =>
    intro g n hf _
    interval_cases n
    cases g <;> rfl
  | succ f ih =>
    intro g n hf hg
    match n, g with
    | 0, g => cases g <;> rfl
    | m + 1, g + 1 =>
      have h2 : (m + 1) / 2 ≤ f := by omega
      have h2g : (m + 1) / 2 ≤ g := by omega
      simp only [binDigitsAux]
      rw [ih g ((m + 1) / 2) h2 h2g]

theorem binDigits_zero : binDigits 0 = [] := rfl

theorem binDigits_succ (m : Nat) :
    binDigits (m + 1) = ((m + 1) % 2 == 1) :: binDigits ((m + 1) / 2) := by
  show binDigitsAux (m + 1) (m + 1) = _
  simp only [binDigitsAux, binDigits]
  rw [binDigitsAux_fuel m ((m + 1) / 2) ((m + 1) / 2) (by omega) (le_refl _)]

/-- The numeric value of a least-significant-first digit list. -/
def bitsVal : List Bool → Nat
  | [] => 0
  | b :: r => (if b then 1 else 0) + 2 * bitsVal r

theorem bitsVal_binDigits (n : Nat) : bitsVal (binDigits n) = n := by
  induction n using Nat.strong_induction_on with
  | _ n ih =>
    match n with
    | 0 => rfl
    | m + 1 =>
      rw [binDigits_succ, bitsVal, ih ((m + 1) / 2) (by omega)]
      rcases Nat.mod_two_eq_zero_or_one (m + 1) with h | h <;> simp [h] <;> omega

/-- The scan of the digit list in `_get_output_split`: collect `2 ^ pos`
for every position (counted from `pos`) whose digit is set. -/
def getOutputSplitAux : List Bool → Nat → List Nat
  | [], _ => []
  | b :: rest, pos =>
    (if b then [2 ^ pos] else []) ++ getOutputSplitAux rest (pos + 1)

/-- Embeds `LedgerAPI._get_output_split` (src/cashu/wallet/wallet.py,
lines 56-64): the list of powers of two at the set bits of `amount`,
ascending. -/
def getOutputSplit (amount : Nat) : List Nat :=
  getOutputSplitAux (binDigits amount) 0

/-- Number of set bits of `n` (the usual popcount). -/
def popcount (n : Nat) : Nat := (binDigits n).count true

theorem getOutputSplitAux_sum (bits : List Bool) :
    ∀ pos, (getOutputSplitAux bits pos).sum = bitsVal bits * 2 ^ pos := by
  induction bits with
  | nil => intro pos; simp [getOutputSplitAux, bitsVal]
  | cons b rest ih =>
    intro pos
    simp only [getOutputSplitAux, bitsVal, List.sum_append, ih (pos + 1)]
    cases b <;> simp [pow_succ] <;> ring

theorem getOutputSplit_sum (n : Nat) : (getOutputSplit n).sum = n := by
  simp [getOutputSplit, getOutputSplitAux_sum, bitsVal_binDigits]

theorem getOutputSplitAux_pow (bits : List Bool) :
    ∀ pos, ∀ a ∈ getOutputSplitAux bits pos, ∃ k, a = 2 ^ k := by
  induction bits with
  | nil => intro pos a ha; simp [getOutputSplitAux] at ha
  | cons b rest ih =>
    intro pos a ha
    simp only [getOutputSplitAux, List.mem_append] at ha
    rcases ha with ha | ha
    · cases b <;> simp at ha
      exact ⟨pos, ha⟩
    · exact ih (pos + 1) a ha

theorem getOutputSplit_pow (n : Nat) : ∀ a ∈ getOutputSplit n, ∃ k, a = 2 ^ k :=
  getOutputSplitAux_pow (binDigits n) 0

theorem getOutputSplitAux_lb (bits : List Bool) :
    ∀ pos, ∀ a ∈ getOutputSplitAux bits pos, 2 ^ pos ≤ a := by
  induction bits with
  | nil => intro pos a ha; simp [getOutputSplitAux] at ha
  | cons b rest ih =>
    intro pos a ha
    simp only [getOutputSplitAux, List.mem_append] at ha
    rcases ha with ha | ha
    · cases b <;> simp at ha
      omega
    · calc 2 ^ pos ≤ 2 ^ (pos + 1) := Nat.pow_le_pow_right (by omega) (by omega)
        _ ≤ a := ih (pos + 1) a ha

theorem getOutputSplitAux_sorted (bits : List Bool) :
    ∀ pos, List.Sorted (· < ·) (getOutputSplitAux bits pos) := by
  induction bits with
  | nil => intro pos; simp [getOutputSplitAux]
  | cons b rest ih =>
    intro pos
    simp only [getOutputSplitAux]
    refine List.pairwise_append.mpr ⟨by cases b <;> simp, ih (pos + 1), ?_⟩
    intro a ha c hc
    have hb : a = 2 ^ pos := by cases b <;> simp at ha; exact ha
    have := getOutputSplitAux_lb rest (pos + 1) c hc
    have hlt : 2 ^ pos < 2 ^ (pos + 1) := Nat.pow_lt_pow_right (by omega) (by omega)
    omega

theorem getOutputSplit_sorted (n : Nat) : List.Sorted (· < ·) (getOutputSplit n) :=
  getOutputSplitAux_sorted (binDigits n) 0

theorem getOutputSplitAux_length (bits : List Bool) :
    ∀ pos, (getOutputSplitAux bits pos).length = bits.count true := by
  induction bits with
  | nil => intro pos; rfl
  | cons b rest ih =>
    intro pos
    simp only [getOutputSplitAux, List.length_append, ih (pos + 1), List.count_cons]
    cases b <;> simp [Nat.add_comm]

theorem getOutputSplit_length (n : Nat) : (getOutputSplit n).length = popcount n :=
  getOutputSplitAux_length (binDigits n) 0

theorem getOutputSplit_eq_nil_iff (n : Nat) : getOutputSplit n = [] ↔ n = 0 := by
  constructor
  · intro h
    have := getOutputSplit_sum n
    rw [h] at this
    simpa using this.symm
  · intro h; subst h; rfl

/-! ## Data model (cashu.core.base, as used by the wallet)

`Proof` carries the fields the wallet reads or writes: `amount`,
`secret`, `C`, the wallet-local `reserved` flag and `send_id`.  Pydantic
defaults `reserved = False` and `send_id = None`. -/

structure Proof where
  amount : Nat
  secret : String
  C : String
  reserved : Bool := false
  send_id : Option String := none
deriving DecidableEq, Repr

/-- `BlindedSignature {amount, C_}`: a promise returned by the mint. -/
structure BlindedSignature where
  amount : Nat
  C_ : String
deriving DecidableEq, Repr

/-- `BlindedMessage {amount, B_}`: a blinded output submitted to the mint. -/
structure BlindedMessage where
  amount : Nat
  B_ : String
deriving DecidableEq, Repr

/-- The externally visible actions of a wallet operation, in the order
they are performed: database queries/writes of `cashu.wallet.crud` and
HTTP requests of `LedgerAPI`. -/
inductive Event where
  | secretUsedQuery (s : String)
  | httpPost (endpoint : String)
  | storeProof (p : Proof)
  | invalidateProof (p : Proof)
  | updateProofReserved (secret : String) (reserved : Bool) (send_id : String)
deriving DecidableEq, Repr

/-- The ambient context of an operation: the store's used-secret index
(a snapshot, the wallet only reads it through `secret_used`), the
random-secret stream backing `LedgerAPI._generate_secret`, and the
abstract elliptic-curve primitives of `cashu.core.b_dhke` together with
the mint keyset. `blind s = (B_, r)` models `step1_alice`; `unblind C_
r K = C` models `step3_alice`; `keys a` is the mint public key for
amount `a`. -/
structure Ctx where
  used : String → Bool
  gen : Nat → String
  blind : String → String × String
  keys : Nat → String
  unblind : String → String → String → String

/-! ## Denomination split of the pipeline (`cashu.core.split.amount_split`)

`amount_split` is imported from `cashu/core/split.py`, a file of this
repository that is not under src/.  Modelled from the spec: the spec
(§4.2) defines it as the binary decomposition — the unique set of
distinct powers of two summing to `n`, ascending, `amount_split(13) =
[1, 4, 8]` — which is exactly `getOutputSplit`, whose doc string in src
("Given an amount returns a list of amounts returned e.g. 13 is
[1, 4, 8]") describes the same function.  The wallet can pass a negative
Python int to it (`total - amount` with `amount > total`): Python's
`bin` renders a negative int as "-0b...", whose reversed scan in this
algorithm sees the same digit characters as for the absolute value, so
the decomposition of `natAbs` is returned. -/
def amount_split (z : Int) : List Nat := getOutputSplit z.natAbs

/-! ## Secret generation (`LedgerAPI._generate_secret`, `generate_secrets`)

Python's `len(secret.split("P2SH:")) == 2` asks whether splitting the
base string at the (non-overlapping, leftmost-first) occurrences of the
marker yields exactly two parts, i.e. whether the marker occurs exactly
once.  `countOccAux` counts those occurrences over the character list
(with fuel for structural recursion); `pythonSplitParts` is the number
of parts `str.split` returns, occurrences + 1. -/

/-- Number of leftmost, non-overlapping occurrences of `sep` in `l`
(`fuel ≥ l.length` suffices). -/
def countOccAux (sep : List Char) : Nat → List Char → Nat
  | _, [] => 0
  | 0, _ :: _ => 0
  | f + 1, c :: rest =>
    if (c :: rest).take sep.length = sep ∧ sep ≠ [] then
      1 + countOccAux sep f (rest.drop (sep.length - 1))
    else
      countOccAux sep f rest

/-- The length of Python's `s.split(sep)` for non-empty `sep`. -/
def pythonSplitParts (s sep : String) : Nat :=
  countOccAux sep.data s.data.length s.data + 1

/-- Embeds `LedgerAPI.generate_secrets` (lines 119-123): if splitting
the base at "P2SH:" yields two parts, `n` strings `"<base>:<fresh>"`
drawing fresh secrets `gen (k + i)`; otherwise the deterministic
`"<i>:<base>"` for `i = 0 .. n-1`. -/
def generate_secrets (gen : Nat → String) (k : Nat) (secret : String) (n : Nat) :
    List String :=
  if pythonSplitParts secret "P2SH:" = 2 then
    (List.range n).map (fun i => secret ++ ":" ++ gen (k + i))
  else
    (List.range n).map (fun i => toString i ++ ":" ++ secret)

/-- Number of fresh secrets `generate_secrets` draws from the stream. -/
def generate_secrets_consumed (secret : String) (n : Nat) : Nat :=
  if pythonSplitParts secret "P2SH:" = 2 then n else 0

/-! ## Used-secret check (`LedgerAPI._check_used_secrets`, lines 114-117) -/

/-- Embeds `_check_used_secrets`: query `secret_used` for each secret in
order, raising at the first one already used. Returns the performed
queries and the outcome. -/
def check_used_secrets (used : String → Bool) :
    List String → List Event × Except String Unit
  | [] => ([], Except.ok ())
  | s :: rest =>
    if used s then
      ([Event.secretUsedQuery s], Except.error ("secret already used: " ++ s))
    else
      (Event.secretUsedQuery s :: (check_used_secrets used rest).1,
       (check_used_secrets used rest).2)

/-! ## Output and proof construction (`LedgerAPI._construct_outputs`,
`LedgerAPI._construct_proofs`) -/

/-- Embeds `_construct_outputs` (lines 96-112): asserts the lengths
match, then for each `(secret, amount)` pair blinds the secret and emits
a `BlindedMessage`, collecting the blinding factors `rs` in step. -/
def construct_outputs (blind : String → String × String)
    (amounts : List Nat) (secrets : List String) :
    Except String (List BlindedMessage × List String) :=
  if amounts.length = secrets.length then
    Except.ok
      ((secrets.zip amounts).map (fun p => { amount := p.2, B_ := (blind p.1).1 }),
       (secrets.zip amounts).map (fun p => (blind p.1).2))
  else
    Except.error "len(amounts) not equal to len(secrets)"

/-- Embeds `_construct_proofs` (lines 66-76): zip promises, secrets and
blinding factors (Python `zip` truncates at the shortest), unblind each
`C_` with the mint key of its amount, and build the `Proof`s. -/
def construct_proofs (ctx : Ctx) (promises : List BlindedSignature)
    (secrets : List String) (rs : List String) : List Proof :=
  (promises.zip (secrets.zip rs)).map (fun t =>
    { amount := t.1.amount,
      secret := t.2.1,
      C := ctx.unblind t.1.C_ t.2.2 (ctx.keys t.1.amount) })

/-! ## The split pipeline (`LedgerAPI.split`, lines 147-201) -/

/-- Sum of the amounts of a pile of proofs (`sum(p["amount"] for p in proofs)`). -/
def totalAmount (proofs : List Proof) : Nat := (proofs.map (·.amount)).sum

/-- The keep-side and send-side denominations of `LedgerAPI.split`
(lines 155-158): `frst_outputs = amount_split(total - amount)`,
`scnd_outputs = amount_split(amount)`. -/
def split_amounts (proofs : List Proof) (amount : Int) : List Nat × List Nat :=
  (amount_split ((totalAmount proofs : Int) - amount), amount_split amount)

/-- The secrets `LedgerAPI.split` generates (lines 161-172).  With no
`scnd_secret` all are fresh; otherwise the send-side secrets come from
`generate_secrets` (computed first, consuming `generate_secrets_consumed`
fresh secrets in the P2SH branch) and the keep-side secrets are fresh,
appended in keep-first order. -/
def split_secrets (gen : Nat → String) (k : Nat) (proofs : List Proof)
    (amount : Int) (scnd_secret : Option String) : List String :=
  let outs := split_amounts proofs amount
  match scnd_secret with
  | none => (List.range (outs.1.length + outs.2.length)).map (fun i => gen (k + i))
  | some s =>
    let scnds := generate_secrets gen k s outs.2.length
    let c := generate_secrets_consumed s outs.2.length
    ((List.range outs.1.length).map (fun i => gen (k + c + i))) ++ scnds

/-- Embeds `LedgerAPI.split` (lines 147-201).  `resp` is the mint's
answer to the POST (`Except.error` for a transport/JSON failure or a
response with an "error" field, `Except.ok (fst, snd)` for the two
promise lists).  Returns the events performed and either the raised
error or the pair `(frst_proofs, scnd_proofs)`. -/
def ledger_split (ctx : Ctx) (k : Nat) (proofs : List Proof) (amount : Int)
    (scnd_secret : Option String)
    (resp : Except String (List BlindedSignature × List BlindedSignature)) :
    List Event × Except String (List Proof × List Proof) :=
  let outs := split_amounts proofs amount
  let amounts := outs.1 ++ outs.2
  let secrets := split_secrets ctx.gen k proofs amount scnd_secret
  if secrets.length = amounts.length then
    match (check_used_secrets ctx.used secrets).2 with
    | Except.error e => ((check_used_secrets ctx.used secrets).1, Except.error e)
    | Except.ok _ =>
      match construct_outputs ctx.blind amounts secrets with
      | Except.error e => ((check_used_secrets ctx.used secrets).1, Except.error e)
      | Except.ok pr =>
        let tr := (check_used_secrets ctx.used secrets).1 ++ [Event.httpPost "/split"]
        match resp with
        | Except.error e => (tr, Except.error ("Mint Error: " ++ e))
        | Except.ok (fstP, sndP) =>
          (tr, Except.ok
            (construct_proofs ctx fstP (secrets.take fstP.length) (pr.2.take fstP.length),
             construct_proofs ctx sndP (secrets.drop fstP.length) (pr.2.drop fstP.length)))
  else ([], Except.error "number of secrets does not match number of outputs")

/-! ## Minting (`LedgerAPI.mint`, lines 125-145) -/

/-- The fresh secrets `LedgerAPI.mint` generates, one per amount. -/
def mint_secrets (gen : Nat → String) (k : Nat) (amounts : List Nat) : List String :=
  (List.range amounts.length).map (fun i => gen (k + i))

/-- Embeds `LedgerAPI.mint` (lines 125-145): generate secrets, check
them against the store, construct outputs, POST /mint, and unblind the
returned promises. -/
def ledger_mint (ctx : Ctx) (k : Nat) (amounts : List Nat)
    (resp : Except String (List BlindedSignature)) :
    List Event × Except String (List Proof) :=
  let secrets := mint_secrets ctx.gen k amounts
  match (check_used_secrets ctx.used secrets).2 with
  | Except.error e => ((check_used_secrets ctx.used secrets).1, Except.error e)
  | Except.ok _ =>
    match construct_outputs ctx.blind amounts secrets with
    | Except.error e => ((check_used_secrets ctx.used secrets).1, Except.error e)
    | Except.ok pr =>
      let tr := (check_used_secrets ctx.used secrets).1 ++ [Event.httpPost "/mint"]
      match resp with
      | Except.error e => (tr, Except.error ("Error: " ++ e))
      | Except.ok promises =>
        (tr, Except.ok (construct_proofs ctx promises secrets pr.2))

/-! ## The wallet orchestrator (`Wallet`, lines 238-386) -/

/-- Embeds `Wallet.split` (lines 282-300).  `mem` is the in-memory
`self.proofs`.  On success returns the new memory, the keep pile and the
send pile; the event list appends to the ledger trace the
`store_proof` writes for all new proofs followed by the
`invalidate_proof` writes for all inputs. -/
def wallet_split (ctx : Ctx) (k : Nat) (mem : List Proof) (proofs : List Proof)
    (amount : Int) (scnd_secret : Option String)
    (resp : Except String (List BlindedSignature × List BlindedSignature)) :
    List Event × Except String (List Proof × List Proof × List Proof) :=
  if proofs.length > 0 then
    match ledger_split ctx k proofs amount scnd_secret resp with
    | (tr, Except.error e) => (tr, Except.error e)
    | (tr, Except.ok (frst, scnd)) =>
      if frst.length = 0 ∧ scnd.length = 0 then
        (tr, Except.error "received no splits.")
      else
        let usedSecrets := proofs.map (·.secret)
        (tr ++ (frst ++ scnd).map Event.storeProof ++ proofs.map Event.invalidateProof,
         Except.ok
           (mem.filter (fun p => !(usedSecrets.contains p.secret)) ++ frst ++ scnd,
            frst, scnd))
  else ([], Except.error "no proofs provided.")

/-- Embeds `Wallet.split_to_send` (lines 322-330): raise "balance too
low." when the non-reserved sub-pile is empty, else delegate to
`Wallet.split` on that sub-pile. -/
def split_to_send (ctx : Ctx) (k : Nat) (mem : List Proof) (proofs : List Proof)
    (amount : Int) (scnd_secret : Option String)
    (resp : Except String (List BlindedSignature × List BlindedSignature)) :
    List Event × Except String (List Proof × List Proof × List Proof) :=
  if (proofs.filter (fun p => !p.reserved)).length ≤ 0 then
    ([], Except.error "balance too low.")
  else
    wallet_split ctx k mem (proofs.filter (fun p => !p.reserved)) amount scnd_secret resp

/-- Embeds `Wallet.set_reserved` (lines 332-339).  `uuidStr` is the one
`uuid.uuid1()` drawn for the batch.  For each proof the Python loop sets
the aliased in-memory object's `reserved` field to `True` (regardless of
the argument) and then persists `update_proof_reserved` with the
argument value and the batch send_id; membership of a memory entry in
the batch is by secret (proof objects are aliased between `proofs` and
`self.proofs`). -/
def set_reserved (uuidStr : String) (mem : List Proof) (proofs : List Proof)
    (reserved : Bool) : List Event × List Proof :=
  (proofs.map (fun p => Event.updateProofReserved p.secret reserved uuidStr),
   mem.map (fun q =>
     if (proofs.map (·.secret)).contains q.secret then { q with reserved := true } else q))

/-- Embeds `Wallet.invalidate` (lines 344-355): POST /check, then for
each input the response reports non-spendable (positionally: the
response maps index `i` to the spendability of `proofs[i]`), persist
`invalidate_proof`; finally drop the invalidated secrets from memory. -/
def wallet_invalidate (mem : List Proof) (proofs : List Proof)
    (spendable : List Bool) : List Event × List Proof :=
  let invalidated := ((proofs.zip spendable).filter (fun q => !q.2)).map (·.1)
  (Event.httpPost "/check" :: invalidated.map Event.invalidateProof,
   mem.filter (fun p => !((invalidated.map (·.secret)).contains p.secret)))

/-- Embeds `Wallet.pay_lightning` (lines 302-309): POST /melt; on
`paid = true` run the `invalidate` reconciliation on the inputs (which
itself asks /check, with answer `spendable`), else raise. -/
def pay_lightning (mem : List Proof) (proofs : List Proof) (paid : Bool)
    (spendable : List Bool) : List Event × Except String (Bool × List Proof) :=
  if paid then
    ((Event.httpPost "/melt" :: (wallet_invalidate mem proofs spendable).1),
     Except.ok (true, (wallet_invalidate mem proofs spendable).2))
  else
    ([Event.httpPost "/melt"], Except.error "could not pay invoice.")

/-! ## Helper lemmas about the pipeline pieces -/

theorem check_used_secrets_ok (used : String → Bool) (l : List String)
    (h : ∀ s ∈ l, used s = false) :
    check_used_secrets used l = (l.map Event.secretUsedQuery, Except.ok ()) := by
  induction l with
  | nil => rfl
  | cons s rest ih =>
    have hs : used s = false := h s (List.mem_cons_self s rest)
    simp [check_used_secrets, hs, ih (fun t ht => h t (List.mem_cons_of_mem s ht))]

theorem check_used_secrets_err (used : String → Bool) (l : List String)
    (h : ∃ s ∈ l, used s = true) :
    ∃ s, used s = true ∧
      (check_used_secrets used l).2 = Except.error ("secret already used: " ++ s) := by
  induction l with
  | nil => simp at h
  | cons a rest ih =>
    by_cases ha : used a = true
    · exact ⟨a, ha, by simp [check_used_secrets, ha]⟩
    · have hb : used a = false := by revert ha; cases used a <;> simp
      obtain ⟨s, hmem, hs⟩ := h
      rcases List.mem_cons.mp hmem with rfl | hmem'
      · exact absurd hs ha
      · obtain ⟨t, ht, he⟩ := ih ⟨s, hmem', hs⟩
        exact ⟨t, ht, by simp [check_used_secrets, hb, he]⟩

theorem check_used_secrets_events (used : String → Bool) (l : List String) :
    ∀ e ∈ (check_used_secrets used l).1, ∃ s, e = Event.secretUsedQuery s := by
  induction l with
  | nil => intro e he; simp [check_used_secrets] at he
  | cons a rest ih =>
    intro e he
    by_cases ha : used a = true
    · rw [check_used_secrets, if_pos ha] at he
      simp only [List.mem_singleton] at he
      exact ⟨a, he⟩
    · rw [check_used_secrets, if_neg ha] at he
      rcases List.mem_cons.mp he with rfl | he'
      · exact ⟨a, rfl⟩
      · exact ih e he'

theorem generate_secrets_length (gen : Nat → String) (k : Nat) (s : String) (n : Nat) :
    (generate_secrets gen k s n).length = n := by
  unfold generate_secrets
  split <;> simp

theorem split_secrets_length (gen : Nat → String) (k : Nat) (P : List Proof)
    (a : Int) (ss : Option String) :
    (split_secrets gen k P a ss).length =
      (split_amounts P a).1.length + (split_amounts P a).2.length := by
  cases ss <;> simp [split_secrets, generate_secrets_length]

theorem construct_proofs_map_amount (ctx : Ctx) (promises : List BlindedSignature)
    (secrets rs : List String)
    (hs : promises.length ≤ secrets.length) (hr : promises.length ≤ rs.length) :
    (construct_proofs ctx promises secrets rs).map (·.amount) =
      promises.map (·.amount) := by
  have h1 : (promises.zip (secrets.zip rs)).map Prod.fst = promises :=
    List.map_fst_zip _ _ (by rw [List.length_zip]; omega)
  calc (construct_proofs ctx promises secrets rs).map (·.amount)
      = ((promises.zip (secrets.zip rs)).map Prod.fst).map (·.amount) := by
        simp [construct_proofs, List.map_map]
    _ = promises.map (·.amount) := by rw [h1]

theorem construct_proofs_length (ctx : Ctx) (promises : List BlindedSignature)
    (secrets rs : List String)
    (hs : promises.length ≤ secrets.length) (hr : promises.length ≤ rs.length) :
    (construct_proofs ctx promises secrets rs).length = promises.length := by
  have := construct_proofs_map_amount ctx promises secrets rs hs hr
  have h2 := congrArg List.length this
  simpa using h2

/-- The blinding factors produced inside `ledger_split` for the split
outputs (the `rs` of `_construct_outputs`). -/
def split_rs (ctx : Ctx) (k : Nat) (P : List Proof) (a : Int)
    (ss : Option String) : List String :=
  ((split_secrets ctx.gen k P a ss).zip
      ((split_amounts P a).1 ++ (split_amounts P a).2)).map
    (fun p => (ctx.blind p.1).2)

theorem split_rs_length (ctx : Ctx) (k : Nat) (P : List Proof) (a : Int)
    (ss : Option String) :
    (split_rs ctx k P a ss).length =
      (split_amounts P a).1.length + (split_amounts P a).2.length := by
  simp [split_rs, List.length_zip, split_secrets_length]

/-- A successful pass through `LedgerAPI.split` when no candidate secret
is used: the trace is all the used-secret queries followed by the POST,
and the result unblinds `fst` against the first `|fst|` secrets and
blinding factors and `snd` against the rest. -/
theorem ledger_split_run_ok (ctx : Ctx) (k : Nat) (P : List Proof) (a : Int)
    (ss : Option String) (fstP sndP : List BlindedSignature)
    (hused : ∀ s ∈ split_secrets ctx.gen k P a ss, ctx.used s = false) :
    ledger_split ctx k P a ss (Except.ok (fstP, sndP)) =
      ((split_secrets ctx.gen k P a ss).map Event.secretUsedQuery ++
         [Event.httpPost "/split"],
       Except.ok
         (construct_proofs ctx fstP
            ((split_secrets ctx.gen k P a ss).take fstP.length)
            ((split_rs ctx k P a ss).take fstP.length),
          construct_proofs ctx sndP
            ((split_secrets ctx.gen k P a ss).drop fstP.length)
            ((split_rs ctx k P a ss).drop fstP.length))) := by
  have hlen : (split_secrets ctx.gen k P a ss).length =
      ((split_amounts P a).1 ++ (split_amounts P a).2).length := by
    rw [List.length_append, split_secrets_length]
  have hck := check_used_secrets_ok ctx.used _ hused
  have hco : construct_outputs ctx.blind
      ((split_amounts P a).1 ++ (split_amounts P a).2)
      (split_secrets ctx.gen k P a ss) =
      Except.ok
        (((split_secrets ctx.gen k P a ss).zip
            ((split_amounts P a).1 ++ (split_amounts P a).2)).map
          (fun p => { amount := p.2, B_ := (ctx.blind p.1).1 }),
         split_rs ctx k P a ss) := by
    simp [construct_outputs, hlen.symm, split_rs]
  simp only [ledger_split, hlen, if_pos rfl, hck, hco]
  rfl

theorem ledger_split_trace (ctx : Ctx) (k : Nat) (P : List Proof) (a : Int)
    (ss : Option String)
    (resp : Except String (List BlindedSignature × List BlindedSignature))
    (hused : ∀ s ∈ split_secrets ctx.gen k P a ss, ctx.used s = false) :
    (ledger_split ctx k P a ss resp).1 =
      (split_secrets ctx.gen k P a ss).map Event.secretUsedQuery ++
        [Event.httpPost "/split"] := by
  have hlen : (split_secrets ctx.gen k P a ss).length =
      ((split_amounts P a).1 ++ (split_amounts P a).2).length := by
    rw [List.length_append, split_secrets_length]
  have hck := check_used_secrets_ok ctx.used _ hused
  have hco : construct_outputs ctx.blind
      ((split_amounts P a).1 ++ (split_amounts P a).2)
      (split_secrets ctx.gen k P a ss) =
      Except.ok
        (((split_secrets ctx.gen k P a ss).zip
            ((split_amounts P a).1 ++ (split_amounts P a).2)).map
          (fun p => { amount := p.2, B_ := (ctx.blind p.1).1 }),
         split_rs ctx k P a ss) := by
    simp [construct_outputs, hlen.symm, split_rs]
  simp only [ledger_split, hlen, if_pos rfl, hck, hco]
  match resp with
  | Except.error e => rfl
  | Except.ok (fstP, sndP) => rfl

/-- The trace of `LedgerAPI.split` is a prefix stage of the pipeline:
nothing, the used-secret queries, or the queries followed by the POST. -/
theorem ledger_split_trace_cases (ctx : Ctx) (k : Nat) (P : List Proof) (a : Int)
    (ss : Option String)
    (resp : Except String (List BlindedSignature × List BlindedSignature)) :
    (ledger_split ctx k P a ss resp).1 = [] ∨
    (ledger_split ctx k P a ss resp).1 =
      (check_used_secrets ctx.used (split_secrets ctx.gen k P a ss)).1 ∨
    (ledger_split ctx k P a ss resp).1 =
      (check_used_secrets ctx.used (split_secrets ctx.gen k P a ss)).1 ++
        [Event.httpPost "/split"] := by
  simp only [ledger_split]
  split
  · split
    · right; left; rfl
    · split
      · right; left; rfl
      · split
        · right; right; rfl
        · right; right; rfl
  · left; rfl

/-- Every event of the `LedgerAPI.split` trace is a used-secret query or
the POST itself: the ledger level performs no store writes. -/
theorem ledger_split_events (ctx : Ctx) (k : Nat) (P : List Proof) (a : Int)
    (ss : Option String)
    (resp : Except String (List BlindedSignature × List BlindedSignature)) :
    ∀ e ∈ (ledger_split ctx k P a ss resp).1,
      (∃ s, e = Event.secretUsedQuery s) ∨ e = Event.httpPost "/split" := by
  intro e he
  rcases ledger_split_trace_cases ctx k P a ss resp with h | h | h <;> rw [h] at he
  · simp at he
  · exact Or.inl (check_used_secrets_events _ _ e he)
  · rcases List.mem_append.mp he with he' | he'
    · exact Or.inl (check_used_secrets_events _ _ e he')
    · exact Or.inr (List.mem_singleton.mp he')

theorem list_length_pos_of_ne_nil {α : Type} {l : List α} (h : l ≠ []) :
    l.length > 0 := by
  cases l with
  | nil => exact absurd rfl h
  | cons a t => simp

/-- Decomposition of a successful `Wallet.split` run: the ledger call
succeeded with exactly the returned piles, the new memory is the old one
minus the input secrets plus both piles, and the trace is the ledger
trace followed by the `store_proof` writes followed by the
`invalidate_proof` writes. -/
theorem wallet_split_ok_shape (ctx : Ctx) (k : Nat) (mem P : List Proof)
    (a : Int) (ss : Option String)
    (resp : Except String (List BlindedSignature × List BlindedSignature))
    (tr : List Event) (mem' frst scnd : List Proof)
    (h : wallet_split ctx k mem P a ss resp = (tr, Except.ok (mem', frst, scnd))) :
    (ledger_split ctx k P a ss resp).2 = Except.ok (frst, scnd) ∧
    mem' = mem.filter (fun p => !((P.map (·.secret)).contains p.secret)) ++ frst ++ scnd ∧
    tr = (ledger_split ctx k P a ss resp).1 ++
      (frst ++ scnd).map Event.storeProof ++ P.map Event.invalidateProof := by
  unfold wallet_split at h
  by_cases hp : P.length > 0
  · rw [if_pos hp] at h
    rcases hls : ledger_split ctx k P a ss resp with ⟨tr1, res⟩
    rw [hls] at h
    match res with
    | Except.error e => simp at h
    | Except.ok (f, s) =>
      dsimp only at h
      by_cases hz : f.length = 0 ∧ s.length = 0
      · rw [if_pos hz] at h
        simp at h
      · rw [if_neg hz] at h
        simp only [Prod.mk.injEq, Except.ok.injEq] at h
        obtain ⟨htr, hm, hfr, hsc⟩ := h
        subst hfr; subst hsc
        exact ⟨rfl, hm.symm, htr.symm⟩
  · rw [if_neg hp] at h
    simp at h

/-! ## Claim C1: the denomination split is the binary decomposition -/

/-- C1: for every non-negative integer `n`, `_get_output_split`
(equivalently `amount_split`) returns exactly the distinct powers of two
summing to `n` — the positions of the set bits — in (strictly)
ascending order; the split of 0 is `[]` and the split of 13 is
`[1, 4, 8]`. -/
theorem claim_C1_denomination_split (n : Nat) :
    (getOutputSplit n).sum = n ∧
    List.Sorted (· < ·) (getOutputSplit n) ∧
    (getOutputSplit n).Nodup ∧
    (∀ a ∈ getOutputSplit n, ∃ k, a = 2 ^ k) ∧
    amount_split (n : Int) = getOutputSplit n ∧
    getOutputSplit 0 = [] ∧ getOutputSplit 13 = [1, 4, 8] :=
  ⟨getOutputSplit_sum n, getOutputSplit_sorted n, (getOutputSplit_sorted n).nodup,
   getOutputSplit_pow n, by simp [amount_split], rfl, by decide⟩

/-- Witness for C1 at the concrete input 13. -/
theorem claim_C1_denomination_split_witness :
    (getOutputSplit 13).sum = 13 ∧ (∃ k, (4 : Nat) = 2 ^ k) :=
  ⟨(claim_C1_denomination_split 13).1,
   (claim_C1_denomination_split 13).2.2.2.1 4 (by decide)⟩

/-! ## Claim C10: `Wallet.split` on an empty pile -/

/-- C10: `Wallet.split` called with an empty proof list fails with "no
proofs provided." for every amount, performing no event at all (no
network call, no store write). -/
theorem claim_C10_split_empty_pile (ctx : Ctx) (k : Nat) (mem : List Proof)
    (amount : Int) (ss : Option String)
    (resp : Except String (List BlindedSignature × List BlindedSignature)) :
    wallet_split ctx k mem [] amount ss resp =
      ([], Except.error "no proofs provided.") := rfl

/-! ## Claim C9: write ordering inside `Wallet.split` -/

/-- C9: in a successful `Wallet.split`, the inputs are removed from the
in-memory set by secret and both new piles appended, and the trace shows
every `store_proof` of a new proof strictly before every
`invalidate_proof` of an input: the prefix `tr0` before those writes is
the ledger trace, which contains no store or invalidate event. -/
theorem claim_C9_split_write_order (ctx : Ctx) (k : Nat) (mem P : List Proof)
    (a : Int) (ss : Option String)
    (resp : Except String (List BlindedSignature × List BlindedSignature))
    (tr : List Event) (mem' frst scnd : List Proof)
    (h : wallet_split ctx k mem P a ss resp = (tr, Except.ok (mem', frst, scnd))) :
    mem' = mem.filter (fun p => !((P.map (·.secret)).contains p.secret)) ++ frst ++ scnd ∧
    ∃ tr0, tr = tr0 ++ (frst ++ scnd).map Event.storeProof ++ P.map Event.invalidateProof ∧
      ∀ e ∈ tr0, (∀ p, e ≠ Event.storeProof p) ∧ (∀ p, e ≠ Event.invalidateProof p) := by
  obtain ⟨hok, hm, htr⟩ := wallet_split_ok_shape ctx k mem P a ss resp tr mem' frst scnd h
  refine ⟨hm, (ledger_split ctx k P a ss resp).1, htr, ?_⟩
  intro e he
  rcases ledger_split_events ctx k P a ss resp e he with ⟨s, rfl⟩ | rfl
  · exact ⟨fun p hp => Event.noConfusion hp, fun p hp => Event.noConfusion hp⟩
  · exact ⟨fun p hp => Event.noConfusion hp, fun p hp => Event.noConfusion hp⟩

/-! ## Claim C2: split conservation -/

theorem split_amounts_fst_nat (P : List Proof) (a : Nat) (ha : a ≤ totalAmount P) :
    (split_amounts P (a : Int)).1 = getOutputSplit (totalAmount P - a) := by
  simp only [split_amounts, amount_split]
  congr 1
  omega

theorem split_amounts_snd_nat (P : List Proof) (a : Nat) :
    (split_amounts P (a : Int)).2 = getOutputSplit a := by
  simp [split_amounts, amount_split]

/-- C2: for a non-empty pile of valid proofs (power-of-two amounts, the
data-model invariant) of total `T`, any `a ≤ T`, and a mint answer whose
`fst`/`snd` promises positionally match the submitted outputs (keep
outputs first, send outputs after), `Wallet.split` succeeds and returns
a keep pile whose amounts are exactly `amount_split(T - a)` and a send
pile whose amounts are exactly `amount_split(a)`; hence the sums are
`T - a` and `a`, the lengths are the popcounts, and every returned proof
amount is a power of two. -/
theorem claim_C2_split_conservation (ctx : Ctx) (k : Nat) (mem P : List Proof)
    (a : Nat) (ss : Option String) (fstP sndP : List BlindedSignature)
    (hne : P ≠ [])
    (hpow : ∀ p ∈ P, ∃ j, p.amount = 2 ^ j)
    (ha : a ≤ totalAmount P)
    (hused : ∀ s, ctx.used s = false)
    (hf : fstP.map (·.amount) = (split_amounts P (a : Int)).1)
    (hs : sndP.map (·.amount) = (split_amounts P (a : Int)).2) :
    ∃ tr mem' keep send,
      wallet_split ctx k mem P (a : Int) ss (Except.ok (fstP, sndP)) =
        (tr, Except.ok (mem', keep, send)) ∧
      keep.map (·.amount) = amount_split ((totalAmount P : Int) - (a : Int)) ∧
      send.map (·.amount) = amount_split (a : Int) ∧
      totalAmount keep = totalAmount P - a ∧
      totalAmount send = a ∧
      keep.length = popcount (totalAmount P - a) ∧
      send.length = popcount a ∧
      (∀ p ∈ keep, ∃ j, p.amount = 2 ^ j) ∧
      (∀ p ∈ send, ∃ j, p.amount = 2 ^ j) := by
  have h1 : (split_amounts P (a : Int)).1 = getOutputSplit (totalAmount P - a) :=
    split_amounts_fst_nat P a ha
  have h2 : (split_amounts P (a : Int)).2 = getOutputSplit a :=
    split_amounts_snd_nat P a
  have husedAll : ∀ s ∈ split_secrets ctx.gen k P (a : Int) ss, ctx.used s = false :=
    fun s _ => hused s
  have hrun := ledger_split_run_ok ctx k P (a : Int) ss fstP sndP husedAll
  have hfl : fstP.length = (split_amounts P (a : Int)).1.length := by
    rw [← hf, List.length_map]
  have hsl : sndP.length = (split_amounts P (a : Int)).2.length := by
    rw [← hs, List.length_map]
  have hsec := split_secrets_length ctx.gen k P (a : Int) ss
  have hrs := split_rs_length ctx k P (a : Int) ss
  have ht1 : fstP.length ≤ ((split_secrets ctx.gen k P (a : Int) ss).take fstP.length).length := by
    rw [List.length_take]; omega
  have ht2 : fstP.length ≤ ((split_rs ctx k P (a : Int) ss).take fstP.length).length := by
    rw [List.length_take]; omega
  have hd1 : sndP.length ≤ ((split_secrets ctx.gen k P (a : Int) ss).drop fstP.length).length := by
    rw [List.length_drop]; omega
  have hd2 : sndP.length ≤ ((split_rs ctx k P (a : Int) ss).drop fstP.length).length := by
    rw [List.length_drop]; omega
  have hFam : (construct_proofs ctx fstP
      ((split_secrets ctx.gen k P (a : Int) ss).take fstP.length)
      ((split_rs ctx k P (a : Int) ss).take fstP.length)).map (·.amount) =
      fstP.map (·.amount) :=
    construct_proofs_map_amount ctx fstP _ _ ht1 ht2
  have hSam : (construct_proofs ctx sndP
      ((split_secrets ctx.gen k P (a : Int) ss).drop fstP.length)
      ((split_rs ctx k P (a : Int) ss).drop fstP.length)).map (·.amount) =
      sndP.map (·.amount) :=
    construct_proofs_map_amount ctx sndP _ _ hd1 hd2
  have hT0 : 0 < totalAmount P := by
    obtain ⟨p, hp⟩ := List.exists_mem_of_ne_nil P hne
    obtain ⟨j, hj⟩ := hpow p hp
    have hmem : p.amount ∈ P.map (·.amount) := List.mem_map_of_mem _ hp
    have hle : p.amount ≤ (P.map (·.amount)).sum :=
      List.single_le_sum (fun x _ => Nat.zero_le x) _ hmem
    have hpos : 0 < p.amount := by rw [hj]; positivity
    unfold totalAmount
    omega
  have hguard : ¬((construct_proofs ctx fstP
      ((split_secrets ctx.gen k P (a : Int) ss).take fstP.length)
      ((split_rs ctx k P (a : Int) ss).take fstP.length)).length = 0 ∧
      (construct_proofs ctx sndP
        ((split_secrets ctx.gen k P (a : Int) ss).drop fstP.length)
        ((split_rs ctx k P (a : Int) ss).drop fstP.length)).length = 0) := by
    rintro ⟨hF0, hS0⟩
    have hFlen := congrArg List.length hFam
    have hSlen := congrArg List.length hSam
    simp only [List.length_map] at hFlen hSlen
    have hfst0 : fstP.length = 0 := by omega
    have hsnd0 : sndP.length = 0 := by omega
    have e1 : (split_amounts P (a : Int)).1.length = 0 := by omega
    have e2 : (split_amounts P (a : Int)).2.length = 0 := by omega
    rw [h1, List.length_eq_zero] at e1
    rw [h2, List.length_eq_zero] at e2
    rw [getOutputSplit_eq_nil_iff] at e1 e2
    omega
  have hPlen : P.length > 0 := list_length_pos_of_ne_nil hne
  have hwal : wallet_split ctx k mem P (a : Int) ss (Except.ok (fstP, sndP)) =
      ((split_secrets ctx.gen k P (a : Int) ss).map Event.secretUsedQuery ++
          [Event.httpPost "/split"] ++
        ((construct_proofs ctx fstP
            ((split_secrets ctx.gen k P (a : Int) ss).take fstP.length)
            ((split_rs ctx k P (a : Int) ss).take fstP.length) ++
          construct_proofs ctx sndP
            ((split_secrets ctx.gen k P (a : Int) ss).drop fstP.length)
            ((split_rs ctx k P (a : Int) ss).drop fstP.length)).map Event.storeProof) ++
        P.map Event.invalidateProof,
       Except.ok
         (mem.filter (fun p => !((P.map (·.secret)).contains p.secret)) ++
            construct_proofs ctx fstP
              ((split_secrets ctx.gen k P (a : Int) ss).take fstP.length)
              ((split_rs ctx k P (a : Int) ss).take fstP.length) ++
            construct_proofs ctx sndP
              ((split_secrets ctx.gen k P (a : Int) ss).drop fstP.length)
              ((split_rs ctx k P (a : Int) ss).drop fstP.length),
          construct_proofs ctx fstP
            ((split_secrets ctx.gen k P (a : Int) ss).take fstP.length)
            ((split_rs ctx k P (a : Int) ss).take fstP.length),
          construct_proofs ctx sndP
            ((split_secrets ctx.gen k P (a : Int) ss).drop fstP.length)
            ((split_rs ctx k P (a : Int) ss).drop fstP.length))) := by
    unfold wallet_split
    rw [if_pos hPlen, hrun]
    dsimp only
    rw [if_neg hguard]
  refine ⟨_, _, _, _, hwal, ?_, ?_, ?_, ?_, ?_, ?_, ?_, ?_⟩
  · rw [hFam, hf]; rfl
  · rw [hSam, hs]; rfl
  · show totalAmount _ = _
    unfold totalAmount
    rw [hFam, hf, h1, getOutputSplit_sum]
    rfl
  · show totalAmount _ = _
    unfold totalAmount
    rw [hSam, hs, h2, getOutputSplit_sum]
  · have := congrArg List.length hFam
    simp only [List.length_map] at this
    rw [this, hfl, h1, getOutputSplit_length]
  · have := congrArg List.length hSam
    simp only [List.length_map] at this
    rw [this, hsl, h2, getOutputSplit_length]
  · intro p hp
    have : p.amount ∈ getOutputSplit (totalAmount P - a) := by
      rw [← h1, ← hf, ← hFam]
      exact List.mem_map_of_mem _ hp
    exact getOutputSplit_pow _ _ this
  · intro p hp
    have : p.amount ∈ getOutputSplit a := by
      rw [← h2, ← hs, ← hSam]
      exact List.mem_map_of_mem _ hp
    exact getOutputSplit_pow _ _ this

/-! ## Concrete fixtures shared by witnesses and counterexamples -/

/-- A context whose store has no used secret, with a deterministic
secret stream and abstract-but-concrete curve primitives. -/
def ctxNone : Ctx :=
  { used := fun _ => false
    gen := fun i => "g" ++ toString i
    blind := fun s => ("B" ++ s, "r" ++ s)
    keys := fun a => "k" ++ toString a
    unblind := fun c r kk => c ++ r ++ kk }

/-- A single unreserved proof of amount 1. -/
def pEx : Proof := { amount := 1, secret := "s", C := "c" }

/-- A reserved proof. -/
def pRes : Proof := { amount := 4, secret := "sr", C := "cr", reserved := true }

/-- A pile of two valid proofs, total 3. -/
def pileW : List Proof :=
  [{ amount := 2, secret := "s1", C := "c1" }, { amount := 1, secret := "s2", C := "c2" }]

/-- Witness for C10 at a concrete input. -/
theorem claim_C10_split_empty_pile_witness :
    wallet_split ctxNone 0 pileW [] 5 none (Except.ok ([], [])) =
      ([], Except.error "no proofs provided.") :=
  claim_C10_split_empty_pile ctxNone 0 pileW 5 none (Except.ok ([], []))

/-- Witness for C2: splitting the concrete pile of total 3 at amount 1
with a positionally matching mint answer conserves the value. -/
theorem claim_C2_split_conservation_witness :
    ∃ tr mem' keep send,
      wallet_split ctxNone 0 [] pileW ((1 : Nat) : Int) none
          (Except.ok ([{ amount := 2, C_ := "F0" }], [{ amount := 1, C_ := "S0" }])) =
        (tr, Except.ok (mem', keep, send)) ∧
      totalAmount keep = 2 ∧ totalAmount send = 1 := by
  obtain ⟨tr, mem', keep, send, hw, _, _, h3, h4, _⟩ :=
    claim_C2_split_conservation ctxNone 0 [] pileW 1 none
      [{ amount := 2, C_ := "F0" }] [{ amount := 1, C_ := "S0" }]
      (by decide)
      (by
        intro p hp
        simp only [pileW, List.mem_cons, List.not_mem_nil, or_false] at hp
        rcases hp with rfl | rfl
        · exact ⟨1, rfl⟩
        · exact ⟨0, rfl⟩)
      (by decide)
      (fun _ => rfl)
      (by decide)
      (by decide)
  exact ⟨tr, mem', keep, send, hw, by rw [h3]; decide, by rw [h4]⟩

/-- The keep-side proof of the concrete C9 run. -/
def pFW : Proof := { amount := 2, secret := "g0", C := "F0rg0k2" }

/-- The send-side proof of the concrete C9 run. -/
def pSW : Proof := { amount := 1, secret := "g1", C := "S0rg1k1" }

/-- The trace of the concrete C9 run. -/
def trW : List Event :=
  [Event.secretUsedQuery "g0", Event.secretUsedQuery "g1", Event.httpPost "/split",
   Event.storeProof pFW, Event.storeProof pSW,
   Event.invalidateProof { amount := 2, secret := "s1", C := "c1" },
   Event.invalidateProof { amount := 1, secret := "s2", C := "c2" }]

/-- Witness for C9 at a concrete successful split run. -/
theorem claim_C9_split_write_order_witness :
    [pFW, pSW] = pileW.filter (fun p => !((pileW.map (·.secret)).contains p.secret)) ++
      [pFW] ++ [pSW] ∧
    ∃ tr0, trW = tr0 ++ ([pFW] ++ [pSW]).map Event.storeProof ++
        pileW.map Event.invalidateProof ∧
      ∀ e ∈ tr0, (∀ p, e ≠ Event.storeProof p) ∧ (∀ p, e ≠ Event.invalidateProof p) :=
  claim_C9_split_write_order ctxNone 0 pileW pileW 1 none
    (Except.ok ([{ amount := 2, C_ := "F0" }], [{ amount := 1, C_ := "S0" }]))
    trW [pFW, pSW] [pFW] [pSW] (by rfl)

/-! ## Claim C3: no local range check in `LedgerAPI.split` -/

/-- Counterexample to C3: with a pile of total 1 and the out-of-range
amounts 2 and -1, `LedgerAPI.split` does not fail before the network
call — the POST /split event is performed in both runs. -/
theorem claim_C3_counterexample :
    Event.httpPost "/split" ∈
      (ledger_split ctxNone 0 [pEx] 2 none (Except.ok ([], []))).1 ∧
    Event.httpPost "/split" ∈
      (ledger_split ctxNone 0 [pEx] (-1) none (Except.ok ([], []))).1 := by
  decide

/-- C3 amended: `LedgerAPI.split` performs no range validation at all.
For every pile, every integer amount (negative or larger than the total
included) and every mint answer, provided only that no generated secret
is already used, the POST /split request is issued. -/
theorem claim_C3_amended_no_range_check (ctx : Ctx) (k : Nat) (P : List Proof)
    (a : Int) (ss : Option String)
    (resp : Except String (List BlindedSignature × List BlindedSignature))
    (hused : ∀ s, ctx.used s = false) :
    Event.httpPost "/split" ∈ (ledger_split ctx k P a ss resp).1 := by
  rw [ledger_split_trace ctx k P a ss resp (fun s _ => hused s)]
  simp

/-- Witness for the amended C3 at the out-of-range concrete input. -/
theorem claim_C3_amended_no_range_check_witness :
    Event.httpPost "/split" ∈
      (ledger_split ctxNone 0 [pEx] 2 none (Except.ok ([], []))).1 :=
  claim_C3_amended_no_range_check ctxNone 0 [pEx] 2 none
    (Except.ok ([], [])) (fun _ => rfl)

/-! ## Claim C4: used-secret check before any request -/

theorem mint_secrets_length (gen : Nat → String) (k : Nat) (amounts : List Nat) :
    (mint_secrets gen k amounts).length = amounts.length := by
  simp [mint_secrets]

/-- Reduction of `ledger_split` when the used-secret check raises. -/
theorem ledger_split_check_err (ctx : Ctx) (k : Nat) (P : List Proof) (a : Int)
    (ss : Option String)
    (resp : Except String (List BlindedSignature × List BlindedSignature))
    (m : String)
    (herr : (check_used_secrets ctx.used (split_secrets ctx.gen k P a ss)).2 =
      Except.error m) :
    ledger_split ctx k P a ss resp =
      ((check_used_secrets ctx.used (split_secrets ctx.gen k P a ss)).1,
       Except.error m) := by
  have hlen : (split_secrets ctx.gen k P a ss).length =
      ((split_amounts P a).1 ++ (split_amounts P a).2).length := by
    rw [List.length_append, split_secrets_length]
  simp only [ledger_split, hlen, if_pos rfl, herr]
  rfl

/-- Reduction of `ledger_mint` when the used-secret check raises. -/
theorem ledger_mint_check_err (ctx : Ctx) (k : Nat) (amounts : List Nat)
    (resp : Except String (List BlindedSignature)) (m : String)
    (herr : (check_used_secrets ctx.used (mint_secrets ctx.gen k amounts)).2 =
      Except.error m) :
    ledger_mint ctx k amounts resp =
      ((check_used_secrets ctx.used (mint_secrets ctx.gen k amounts)).1,
       Except.error m) := by
  simp only [ledger_mint, herr]

/-- The blinding factors produced inside `ledger_mint`. -/
def mint_rs (ctx : Ctx) (k : Nat) (amounts : List Nat) : List String :=
  ((mint_secrets ctx.gen k amounts).zip amounts).map (fun p => (ctx.blind p.1).2)

/-- The trace of `LedgerAPI.mint` when no candidate secret is used: all
the queries, then the POST /mint. -/
theorem ledger_mint_trace (ctx : Ctx) (k : Nat) (amounts : List Nat)
    (resp : Except String (List BlindedSignature))
    (hused : ∀ s ∈ mint_secrets ctx.gen k amounts, ctx.used s = false) :
    (ledger_mint ctx k amounts resp).1 =
      (mint_secrets ctx.gen k amounts).map Event.secretUsedQuery ++
        [Event.httpPost "/mint"] := by
  have hck := check_used_secrets_ok ctx.used _ hused
  have hco : construct_outputs ctx.blind amounts (mint_secrets ctx.gen k amounts) =
      Except.ok
        (((mint_secrets ctx.gen k amounts).zip amounts).map
          (fun p => { amount := p.2, B_ := (ctx.blind p.1).1 }),
         mint_rs ctx k amounts) := by
    simp [construct_outputs, mint_secrets_length, mint_rs]
  simp only [ledger_mint, hck, hco]
  match resp with
  | Except.error e => rfl
  | Except.ok promises => rfl

/-- C4: for both mint and split, every candidate output secret is
checked against the store's `secret_used` index before the HTTP request
is issued.  If some candidate secret is already used, the operation
aborts with the secret-reuse error and performs no HTTP request at all;
if none is used, the trace is exactly all the used-secret queries
followed by the POST, so every check precedes the request. -/
theorem claim_C4_secret_check_before_request (ctx : Ctx) (k : Nat)
    (amounts : List Nat) (respM : Except String (List BlindedSignature))
    (P : List Proof) (a : Int) (ss : Option String)
    (respS : Except String (List BlindedSignature × List BlindedSignature)) :
    ((∃ s ∈ split_secrets ctx.gen k P a ss, ctx.used s = true) →
      (∃ s, ctx.used s = true ∧
        (ledger_split ctx k P a ss respS).2 =
          Except.error ("secret already used: " ++ s)) ∧
      ∀ ep, Event.httpPost ep ∉ (ledger_split ctx k P a ss respS).1) ∧
    ((∀ s ∈ split_secrets ctx.gen k P a ss, ctx.used s = false) →
      (ledger_split ctx k P a ss respS).1 =
        (split_secrets ctx.gen k P a ss).map Event.secretUsedQuery ++
          [Event.httpPost "/split"]) ∧
    ((∃ s ∈ mint_secrets ctx.gen k amounts, ctx.used s = true) →
      (∃ s, ctx.used s = true ∧
        (ledger_mint ctx k amounts respM).2 =
          Except.error ("secret already used: " ++ s)) ∧
      ∀ ep, Event.httpPost ep ∉ (ledger_mint ctx k amounts respM).1) ∧
    ((∀ s ∈ mint_secrets ctx.gen k amounts, ctx.used s = false) →
      (ledger_mint ctx k amounts respM).1 =
        (mint_secrets ctx.gen k amounts).map Event.secretUsedQuery ++
          [Event.httpPost "/mint"]) := by
  refine ⟨?_, ?_, ?_, ?_⟩
  · intro h
    obtain ⟨s, hsu, herr⟩ := check_used_secrets_err ctx.used _ h
    have hred := ledger_split_check_err ctx k P a ss respS _ herr
    refine ⟨⟨s, hsu, by rw [hred]⟩, ?_⟩
    intro ep hmem
    rw [hred] at hmem
    obtain ⟨t, ht⟩ := check_used_secrets_events _ _ _ hmem
    exact Event.noConfusion ht
  · intro h
    exact ledger_split_trace ctx k P a ss respS h
  · intro h
    obtain ⟨s, hsu, herr⟩ := check_used_secrets_err ctx.used _ h
    have hred := ledger_mint_check_err ctx k amounts respM _ herr
    refine ⟨⟨s, hsu, by rw [hred]⟩, ?_⟩
    intro ep hmem
    rw [hred] at hmem
    obtain ⟨t, ht⟩ := check_used_secrets_events _ _ _ hmem
    exact Event.noConfusion ht
  · intro h
    exact ledger_mint_trace ctx k amounts respM h

/-- A context whose store already knows the first generated secret. -/
def ctxUsed : Ctx :=
  { used := fun s => s == "g0"
    gen := fun i => "g" ++ toString i
    blind := fun s => ("B" ++ s, "r" ++ s)
    keys := fun a => "k" ++ toString a
    unblind := fun c r kk => c ++ r ++ kk }

/-- Witness for C4: with the secret "g0" already used, the concrete
split aborts with the secret-reuse error and performs no POST; with no
used secret, the concrete mint's trace is queries-then-POST. -/
theorem claim_C4_secret_check_before_request_witness :
    ((∃ s, ctxUsed.used s = true ∧
      (ledger_split ctxUsed 0 [pEx] 1 none (Except.ok ([], []))).2 =
        Except.error ("secret already used: " ++ s)) ∧
      ∀ ep, Event.httpPost ep ∉
        (ledger_split ctxUsed 0 [pEx] 1 none (Except.ok ([], []))).1) ∧
    (ledger_mint ctxNone 0 [1, 2] (Except.ok [])).1 =
      (mint_secrets ctxNone.gen 0 [1, 2]).map Event.secretUsedQuery ++
        [Event.httpPost "/mint"] :=
  ⟨(claim_C4_secret_check_before_request ctxUsed 0 [1, 2] (Except.ok [])
      [pEx] 1 none (Except.ok ([], []))).1 (by decide),
   (claim_C4_secret_check_before_request ctxNone 0 [1, 2] (Except.ok [])
      [pEx] 1 none (Except.ok ([], []))).2.2.2 (by decide)⟩

/-! ## Claim C5: `set_reserved` and the in-memory flag -/

/-- C5 (evaluation at the failing input): `set_reserved([p], false)` on
a proof with `reserved = false` persists the argument value `false`
together with the batch send_id, but leaves the in-memory proof with
`reserved = true` — the Python loop assigns `proof.reserved = True`
regardless of the argument, so the in-memory flag does not reflect the
argument as the claim requires. -/
theorem claim_C5_set_reserved_flag_eval :
    set_reserved "uid" [pEx] [pEx] false =
      ([Event.updateProofReserved "s" false "uid"],
       [{ amount := 1, secret := "s", C := "c", reserved := true, send_id := none }]) := by
  decide

/-! ## Claim C6: `split_to_send` balance condition -/

/-- Counterexample to C6: a non-reserved pile of total 1 with requested
amount 5 (sum strictly below the amount) does not raise "balance too
low." — the delegated split proceeds all the way to the POST /split
request.  Only the emptiness of the filtered pile is checked. -/
theorem claim_C6_counterexample :
    (split_to_send ctxNone 0 [] [pEx] 5 none (Except.ok ([], []))).2 =
      Except.error "received no splits." ∧
    (split_to_send ctxNone 0 [] [pEx] 5 none (Except.ok ([], []))).2 ≠
      Except.error "balance too low." ∧
    Event.httpPost "/split" ∈
      (split_to_send ctxNone 0 [] [pEx] 5 none (Except.ok ([], []))).1 := by
  refine ⟨rfl, ?_, by decide⟩
  have hr : (split_to_send ctxNone 0 [] [pEx] 5 none (Except.ok ([], []))).2 =
      Except.error "received no splits." := rfl
  rw [hr]
  intro h
  exact absurd (Except.error.inj h) (by decide)

/-- C6 amended: `split_to_send` filters the pile to the non-reserved
proofs and delegates to `Wallet.split` on the filtered pile; it fails
with the balance error exactly when the filtered pile is empty — a
non-empty filtered pile whose sum is below the requested amount is
passed on to `split` unchecked. -/
theorem claim_C6_amended_balance_check (ctx : Ctx) (k : Nat)
    (mem proofs : List Proof) (amount : Int) (ss : Option String)
    (resp : Except String (List BlindedSignature × List BlindedSignature)) :
    (proofs.filter (fun p => !p.reserved) = [] →
      split_to_send ctx k mem proofs amount ss resp =
        ([], Except.error "balance too low.")) ∧
    (proofs.filter (fun p => !p.reserved) ≠ [] →
      split_to_send ctx k mem proofs amount ss resp =
        wallet_split ctx k mem (proofs.filter (fun p => !p.reserved)) amount ss resp) := by
  constructor
  · intro h
    simp [split_to_send, h]
  · intro h
    rw [split_to_send, if_neg]
    intro hc
    exact h (List.length_eq_zero.mp (Nat.le_zero.mp hc))

/-- Witness for the amended C6: an all-reserved pile raises the balance
error; the non-reserved under-funded pile delegates to `split`. -/
theorem claim_C6_amended_balance_check_witness :
    split_to_send ctxNone 0 [] [pRes] 1 none (Except.ok ([], [])) =
      ([], Except.error "balance too low.") ∧
    split_to_send ctxNone 0 [] [pEx] 5 none (Except.ok ([], [])) =
      wallet_split ctxNone 0 [] ([pEx].filter (fun p => !p.reserved)) 5 none
        (Except.ok ([], [])) :=
  ⟨(claim_C6_amended_balance_check ctxNone 0 [] [pRes] 1 none
      (Except.ok ([], []))).1 (by decide),
   (claim_C6_amended_balance_check ctxNone 0 [] [pEx] 5 none
      (Except.ok ([], []))).2 (by decide)⟩

/-! ## Claim C7: `pay_lightning` and invalidation -/

/-- Counterexample to C7: the mint reports `paid = true` for the melt
but still lists the input as spendable in the /check reconciliation, so
`pay_lightning` invalidates nothing: the trace holds no
`invalidate_proof` write and the input proof stays in the returned
memory, contradicting "all input proofs are invalidated". -/
theorem claim_C7_counterexample :
    pay_lightning [pEx] [pEx] true [true] =
      ([Event.httpPost "/melt", Event.httpPost "/check"],
       Except.ok (true, [pEx])) := rfl

/-- C7 amended: on `paid = false`, `pay_lightning` raises the payment
error after the POST /melt alone, leaving memory and store untouched; on
`paid = true` it runs the /check-based reconciliation and invalidates
exactly the inputs the mint reports non-spendable — in particular, when
the mint reports every input non-spendable, every input proof is removed
from memory and invalidated in the store. -/
theorem claim_C7_amended_melt_reconciliation (mem proofs : List Proof)
    (spendable : List Bool) :
    (pay_lightning mem proofs false spendable =
      ([Event.httpPost "/melt"], Except.error "could not pay invoice.")) ∧
    (pay_lightning mem proofs true spendable =
      (Event.httpPost "/melt" :: Event.httpPost "/check" ::
         (((proofs.zip spendable).filter (fun q => !q.2)).map (·.1)).map
           Event.invalidateProof,
       Except.ok (true, mem.filter (fun p =>
         !(((((proofs.zip spendable).filter (fun q => !q.2)).map (·.1)).map
             (·.secret)).contains p.secret))))) ∧
    (spendable.length = proofs.length → (∀ b ∈ spendable, b = false) →
      pay_lightning mem proofs true spendable =
        (Event.httpPost "/melt" :: Event.httpPost "/check" ::
           proofs.map Event.invalidateProof,
         Except.ok (true, mem.filter (fun p =>
           !((proofs.map (·.secret)).contains p.secret))))) := by
  refine ⟨rfl, rfl, ?_⟩
  intro hlen hall
  have hzf : (proofs.zip spendable).filter (fun q => !q.2) = proofs.zip spendable := by
    rw [List.filter_eq_self]
    rintro ⟨q1, q2⟩ hq
    have h2 : q2 ∈ spendable := (List.of_mem_zip hq).2
    rw [hall q2 h2]
    rfl
  have hmapfst : (proofs.zip spendable).map (·.1) = proofs :=
    List.map_fst_zip _ _ (le_of_eq hlen.symm)
  show (Event.httpPost "/melt" :: (wallet_invalidate mem proofs spendable).1,
      Except.ok (true, (wallet_invalidate mem proofs spendable).2)) = _
  unfold wallet_invalidate
  rw [hzf, hmapfst]

/-- Witness for the amended C7: concrete runs of both branches, with the
mint reporting the single input non-spendable in the paid case. -/
theorem claim_C7_amended_melt_reconciliation_witness :
    pay_lightning [pEx] [pEx] false [false] =
      ([Event.httpPost "/melt"], Except.error "could not pay invoice.") ∧
    pay_lightning [pEx] [pEx] true [false] =
      (Event.httpPost "/melt" :: Event.httpPost "/check" ::
         [pEx].map Event.invalidateProof,
       Except.ok (true, [])) := by
  constructor
  · exact (claim_C7_amended_melt_reconciliation [pEx] [pEx] [false]).1
  · have h := (claim_C7_amended_melt_reconciliation [pEx] [pEx] [false]).2.2
      (by decide) (by decide)
    rw [h]
    rfl

/-! ## Claim C8: secret expansion -/

theorem string_append_left_cancel (pre x y : String) (h : pre ++ x = pre ++ y) :
    x = y := by
  have hd : (pre ++ x).data = (pre ++ y).data := congrArg String.data h
  rw [String.data_append, String.data_append] at hd
  exact String.ext (List.append_cancel_left hd)

/-- C8: if splitting the base `b` at the marker "P2SH:" yields exactly
two parts, `generate_secrets` yields `n` strings of the form
`b ++ ":" ++ <fresh secret>`, each starting with `b ++ ":"`, pairwise
distinct whenever the drawn fresh secrets are (which is what the
cryptographic generator provides); otherwise it yields exactly the
deterministic list `["0:" ++ b, …, "(n-1):" ++ b]` in that order. -/
theorem claim_C8_generate_secrets (gen : Nat → String) (k : Nat) (b : String)
    (n : Nat) :
    (pythonSplitParts b "P2SH:" = 2 →
      generate_secrets gen k b n =
        (List.range n).map (fun i => b ++ ":" ++ gen (k + i)) ∧
      (∀ s ∈ generate_secrets gen k b n, ∃ t, s = b ++ ":" ++ t) ∧
      (generate_secrets gen k b n).length = n ∧
      ((∀ i j, i < n → j < n → gen (k + i) = gen (k + j) → i = j) →
        (generate_secrets gen k b n).Nodup)) ∧
    (pythonSplitParts b "P2SH:" ≠ 2 →
      generate_secrets gen k b n =
        (List.range n).map (fun i => toString i ++ ":" ++ b)) := by
  constructor
  · intro h2
    have heq : generate_secrets gen k b n =
        (List.range n).map (fun i => b ++ ":" ++ gen (k + i)) := by
      rw [generate_secrets, if_pos h2]
    refine ⟨heq, ?_, ?_, ?_⟩
    · intro s hs
      rw [heq] at hs
      obtain ⟨i, _, rfl⟩ := List.mem_map.mp hs
      exact ⟨gen (k + i), rfl⟩
    · rw [heq, List.length_map, List.length_range]
    · intro hinj
      rw [heq]
      refine (List.nodup_range n).map_on ?_
      intro i hi j hj hf
      have hg : gen (k + i) = gen (k + j) :=
        string_append_left_cancel (b ++ ":") _ _ hf
      exact hinj i j (List.mem_range.mp hi) (List.mem_range.mp hj) hg
  · intro h2
    rw [generate_secrets, if_neg h2]

/-- An injective secret stream for the C8 witness. -/
def genW : Nat → String := fun i => if i = 0 then "ga" else "gb"

/-- Witness for C8 at concrete inputs: a P2SH base expands to distinct
suffixed secrets; a plain base expands deterministically. -/
theorem claim_C8_generate_secrets_witness :
    (generate_secrets genW 0 "P2SH:addr" 2).Nodup ∧
    generate_secrets genW 0 "plain" 3 =
      (List.range 3).map (fun i => toString i ++ ":" ++ "plain") :=
  ⟨((claim_C8_generate_secrets genW 0 "P2SH:addr" 2).1 (by decide)).2.2.2
      (by
        intro i j hi hj h
        interval_cases i <;> interval_cases j <;> first
          | rfl
          | (exact absurd h (by decide))),
   (claim_C8_generate_secrets genW 0 "plain" 3).2 (by decide)⟩

end Cashu
